import Mathlib

/-!
Shallow embedding of the order admission, pricing, and settlement engine of
the gala8ball repository (`src/server/routes.ts`, POST `/api/orders` handler
together with its helpers `updateUserPosition` and `updateMarketPrices`, and
the record shapes of the drizzle schema appended to that file).

Modelling conventions:
* All monetary and share quantities are modelled as `ℚ`.  The source stores
  them as decimal strings and computes with JavaScript numbers via
  `parseFloat`; the claims under study are about the algebraic structure of
  the computation, which `ℚ` captures exactly.
* The handler reads exactly one market, one user balance, and one position
  per outcome for the requesting user; the state type `SysState` therefore
  holds one market, one cash balance, one optional position per outcome, and
  the order and trade ledgers as lists (`createOrder`/`createTrade` append).
  The `Market not found` / `User balance not found` lookups of the source are
  outside this state (the claims concern only business-rule behaviour once
  both records exist).
* `parseFloat(validatedData.limitPrice!)` yields JavaScript `NaN` when a
  limit order carries no `limitPrice`.  Every comparison against `NaN` is
  `false` and `Math.min`/`Math.max` propagate it, so such an order can never
  satisfy `canExecute` and the server-computed share count stored on it is
  `NaN`.  We model a possibly-`NaN` number as `Option ℚ` (`none` = `NaN`):
  the execution decision for a missing `limitPrice` is `noExec none`, and the
  stored share field of an order record is `Option ℚ`.
-/

namespace Gala8Ball

inductive Outcome
  | yes
  | no
deriving DecidableEq

inductive Side
  | buy
  | sell
deriving DecidableEq

inductive OrderType
  | market
  | limit
deriving DecidableEq

inductive OrderStatus
  | pending
  | filled
deriving DecidableEq

/-- The market record fields touched or carried by the engine
(schema `markets` table; `tradingFee` is carried to show it is never used). -/
structure Market where
  yesPrice : ℚ
  noPrice : ℚ
  volume : ℚ
  liquidity : ℚ
  tradingFee : ℚ
deriving DecidableEq

/-- A position record for one (user, market, outcome) key
(schema `positions` table). -/
structure Position where
  shares : ℚ
  avgPrice : ℚ
  totalCost : ℚ
deriving DecidableEq

/-- The validated order request (`insertOrderSchema`): `shares` is required
by the schema and caller-supplied; the handler overrides it. -/
structure OrderReq where
  type : OrderType
  side : Side
  outcome : Outcome
  amount : ℚ
  limitPrice : Option ℚ
  maxSlippage : Option ℚ
  minPrice : Option ℚ
  maxPrice : Option ℚ
  shares : ℚ
deriving DecidableEq

/-- A stored order record (schema `orders` table); `shares` is the
server-computed count, `none` standing for the `NaN` produced when a limit
order carries no `limitPrice`. -/
structure OrderRec where
  type : OrderType
  side : Side
  outcome : Outcome
  amount : ℚ
  limitPrice : Option ℚ
  maxSlippage : Option ℚ
  minPrice : Option ℚ
  maxPrice : Option ℚ
  shares : Option ℚ
  filledShares : ℚ
  avgFillPrice : Option ℚ
  status : OrderStatus
deriving DecidableEq

/-- A stored trade record (schema `trades` table). `buySide = true` means
the buyer-side fields (`buyOrderId`, `buyerId`) are the populated ones. -/
structure TradeRec where
  buySide : Bool
  outcome : Outcome
  shares : ℚ
  price : ℚ
  amount : ℚ
deriving DecidableEq

/-- The ledgers the POST `/api/orders` handler reads and writes: the target
market, the caller's cash balance, the caller's position per outcome, and
the order and trade tables. -/
structure SysState where
  market : Market
  balance : ℚ
  posYes : Option Position
  posNo : Option Position
  orders : List OrderRec
  trades : List TradeRec
deriving DecidableEq

/-- `storage.getPosition(userId, marketId, outcome)` for the requesting
user and target market. -/
def SysState.getPosition (s : SysState) (o : Outcome) : Option Position :=
  match o with
  | .yes => s.posYes
  | .no => s.posNo

/-- Write back the position for one outcome
(`storage.updatePosition` / `storage.createPosition`). -/
def SysState.setPosition (s : SysState) (o : Outcome) (p : Position) : SysState :=
  match o with
  | .yes => { s with posYes := some p }
  | .no => { s with posNo := some p }

/-- `currentPrice`: the quoted price of the requested outcome
(routes.ts lines 243–245). -/
def SysState.currentPrice (s : SysState) (o : Outcome) : ℚ :=
  match o with
  | .yes => s.market.yesPrice
  | .no => s.market.noPrice

/-- Helper `updateUserPosition` (routes.ts lines 9–40), restricted to the
position arithmetic: weighted-average increase of an existing position, or
creation of a fresh one. -/
def updateUserPosition (pos : Option Position) (shares price amount : ℚ) : Position :=
  match pos with
  | some existing =>
      let newShares := existing.shares + shares
      let newTotalCost := existing.totalCost + amount
      { shares := newShares
        totalCost := newTotalCost
        avgPrice := newTotalCost / newShares }
  | none =>
      { shares := shares, avgPrice := price, totalCost := amount }

/-- The sell-side position update inlined at routes.ts lines 407–427:
close the position when `newShares <= 0`, otherwise reduce the cost basis
by `actualShares * avgPrice` floored at zero, keeping `avgPrice`. -/
def sellPositionUpdate (existing : Position) (actualShares : ℚ) : Position :=
  let newShares := existing.shares - actualShares
  if newShares ≤ 0 then
    { shares := 0, totalCost := 0, avgPrice := existing.avgPrice }
  else
    let costReduction := actualShares * existing.avgPrice
    let newTotalCost := existing.totalCost - costReduction
    { shares := newShares
      totalCost := max 0 newTotalCost
      avgPrice := existing.avgPrice }

/-- Helper `updateMarketPrices` (routes.ts lines 43–78): constant-impact AMM
price move plus volume accumulation.  `storage.updateMarket` writes only
`volume`, `yesPrice`, `noPrice`. -/
def updateMarketPrices (m : Market) (outcome : Outcome) (side : Side)
    (tradeAmount : ℚ) : Market :=
  let newVolume := m.volume + tradeAmount
  let baseImpact : ℚ := 1 / 100
  let volumeMultiplier : ℚ := min (tradeAmount / 1000) (1 / 20)
  let priceImpact := baseImpact + volumeMultiplier
  let yesPrice :=
    if (outcome = .yes ∧ side = .buy) ∨ (outcome = .no ∧ side = .sell) then
      min (19 / 20) (m.yesPrice + priceImpact)
    else
      max (1 / 20) (m.yesPrice - priceImpact)
  { m with
    volume := newVolume
    yesPrice := yesPrice
    noPrice := 1 - yesPrice }

/-- The business-rule error responses the handler can return
(routes.ts lines 238–240, 257–263, 281–295, 333–349, 385–391). -/
inductive OrderError
  | insufficientBalance
  | insufficientShares
  | priceAboveMax
  | priceBelowMin
  | slippageExceeded
deriving DecidableEq

/-- The handler's non-error response: `executed` flag plus the execution
price echoed on the executed branch (routes.ts lines 440–446, 449–453). -/
inductive OrderResult
  | err (e : OrderError)
  | created (executed : Bool) (executionPrice : Option ℚ)
deriving DecidableEq

/-- Outcome of the execution-decision section (routes.ts lines 266–309):
`exec p` for `canExecute = true` at execution price `p`; `noExec p?` for
`canExecute = false` with the (possibly `NaN`) `executionPrice` variable
left holding `p?`.  `canExecute` can only be `true` with a numeric price:
market orders use `currentPrice` and a limit order with a missing
`limitPrice` fails every `NaN` comparison. -/
inductive ExecDecision
  | exec (p : ℚ)
  | noExec (p : Option ℚ)
deriving DecidableEq

/-- The execution-decision computation (routes.ts lines 266–309), including
the `maxPrice` / `minPrice` absolute-bound checks, which the source performs
only inside the `type === 'market'` branch (lines 281–295). -/
def decideExecution (req : OrderReq) (cp : ℚ) : Except OrderError ExecDecision :=
  match req.type with
  | .market =>
      match req.maxPrice with
      | some mp =>
          if mp < cp then .error .priceAboveMax
          else
            match req.minPrice with
            | some minp => if cp < minp then .error .priceBelowMin else .ok (.exec cp)
            | none => .ok (.exec cp)
      | none =>
          match req.minPrice with
          | some minp => if cp < minp then .error .priceBelowMin else .ok (.exec cp)
          | none => .ok (.exec cp)
  | .limit =>
      match req.limitPrice with
      | none => .ok (.noExec none)
      | some lp =>
          match req.side with
          | .buy =>
              if cp ≤ lp then .ok (.exec (min cp lp)) else .ok (.noExec (some (min cp lp)))
          | .sell =>
              if lp ≤ cp then .ok (.exec (max cp lp)) else .ok (.noExec (some (max cp lp)))

/-- The order record written by `storage.createOrder` (routes.ts lines
311–320): the caller's fields with the `shares` field overridden by the
server-computed `amount / executionPrice` (`none` = `NaN`), status
defaulting to `pending`. -/
def mkOrderRec (req : OrderReq) (serverShares : Option ℚ) : OrderRec :=
  { type := req.type
    side := req.side
    outcome := req.outcome
    amount := req.amount
    limitPrice := req.limitPrice
    maxSlippage := req.maxSlippage
    minPrice := req.minPrice
    maxPrice := req.maxPrice
    shares := serverShares
    filledShares := 0
    avgFillPrice := none
    status := .pending }

/-- The upfront share-availability test for sell orders (routes.ts lines
248–264): fails when no position exists or it holds fewer shares than
`amount / currentPrice`. -/
def lacksShares (pos : Option Position) (required : ℚ) : Bool :=
  match pos with
  | none => true
  | some p => decide (p.shares < required)

/-- The POST `/api/orders` handler (routes.ts lines 222–461) as a pure
function from the request and the ledgers it touches to the response and the
final ledgers.  The intermediate `pending` order written at line 320 and
updated to `filled` at line 434 is represented by its final value. -/
def processOrder (req : OrderReq) (s : SysState) : OrderResult × SysState :=
  -- line 238: cash balance check, buy orders only
  if req.side = .buy ∧ s.balance < req.amount then
    (.err .insufficientBalance, s)
  else
    let cp := s.currentPrice req.outcome
    -- lines 248–264: upfront share check for sell orders
    if req.side = .sell ∧ lacksShares (s.getPosition req.outcome) (req.amount / cp) then
      (.err .insufficientShares, s)
    else
      -- lines 266–309: execution decision (with market-order bound checks)
      match decideExecution req cp with
      | .error e => (.err e, s)
      | .ok (.noExec p?) =>
          -- lines 311–320 and 447–454: order persisted as pending; the
          -- server-computed shares are `amount / executionPrice` with the
          -- (possibly `NaN`) non-executing price
          let order := mkOrderRec req (p?.map (fun p => req.amount / p))
          (.created false none, { s with orders := s.orders ++ [order] })
      | .ok (.exec p) =>
          -- lines 311–320: server-side share computation and order creation
          let order := mkOrderRec req (some (req.amount / p))
          let s₁ := { s with orders := s.orders ++ [order] }
          -- lines 327–349: slippage enforcement (after order creation)
          let ms := req.maxSlippage.getD (1 / 20)
          let bound := if req.side = .buy then cp * (1 + ms) else cp * (1 - ms)
          if req.side = .buy ∧ bound < p then
            (.err .slippageExceeded, s₁)
          else if req.side = .sell ∧ p < bound then
            (.err .slippageExceeded, s₁)
          else
            let shares := req.amount / p
            match req.side with
                | .buy =>
                    -- lines 352–376: trade, balance debit, position increase
                    let t : TradeRec :=
                      { buySide := true, outcome := req.outcome
                        shares := shares, price := p, amount := req.amount }
                    let s₂ :=
                      { s₁ with
                        trades := s₁.trades ++ [t]
                        balance := s.balance - req.amount }
                    let s₃ :=
                      s₂.setPosition req.outcome
                        (updateUserPosition (s.getPosition req.outcome) shares p req.amount)
                    -- lines 430–438: market price update and order fill
                    let s₄ := { s₃ with market := updateMarketPrices s.market req.outcome req.side req.amount }
                    let filled :=
                      { order with status := .filled, filledShares := shares, avgFillPrice := some p }
                    (.created true (some p),
                     { s₄ with orders := s.orders ++ [filled] })
                | .sell =>
                    -- lines 379–391: settlement-time share re-check
                    match s.getPosition req.outcome with
                    | none => (.err .insufficientShares, s₁)
                    | some pos =>
                        if pos.shares < shares then
                          (.err .insufficientShares, s₁)
                        else
                          -- lines 393–427: trade, balance credit, position decrease
                          let t : TradeRec :=
                            { buySide := false, outcome := req.outcome
                              shares := shares, price := p, amount := req.amount }
                          let s₂ :=
                            { s₁ with
                              trades := s₁.trades ++ [t]
                              balance := s.balance + req.amount }
                          let s₃ := s₂.setPosition req.outcome (sellPositionUpdate pos shares)
                          let s₄ := { s₃ with market := updateMarketPrices s.market req.outcome req.side req.amount }
                          let filled :=
                            { order with status := .filled, filledShares := shares, avgFillPrice := some p }
                          (.created true (some p),
                           { s₄ with orders := s.orders ++ [filled] })

/-! ## Helper lemmas -/

theorem buy_ne_sell : ¬ (Side.buy = Side.sell) := by decide

theorem sell_ne_buy : ¬ (Side.sell = Side.buy) := by decide

@[simp] theorem setPosition_market (s : SysState) (o : Outcome) (p : Position) :
    (s.setPosition o p).market = s.market := by cases o <;> rfl

@[simp] theorem setPosition_balance (s : SysState) (o : Outcome) (p : Position) :
    (s.setPosition o p).balance = s.balance := by cases o <;> rfl

@[simp] theorem setPosition_orders (s : SysState) (o : Outcome) (p : Position) :
    (s.setPosition o p).orders = s.orders := by cases o <;> rfl

@[simp] theorem setPosition_trades (s : SysState) (o : Outcome) (p : Position) :
    (s.setPosition o p).trades = s.trades := by cases o <;> rfl

@[simp] theorem getPosition_setPosition_same (s : SysState) (o : Outcome) (p : Position) :
    (s.setPosition o p).getPosition o = some p := by
  cases o <;> rfl

theorem getPosition_setPosition_other (s : SysState) (o o' : Outcome) (p : Position)
    (h : o' ≠ o) : (s.setPosition o p).getPosition o' = s.getPosition o' := by
  cases o <;> cases o' <;> first | rfl | exact absurd rfl h

@[simp] theorem updateMarketPrices_volume (m : Market) (o : Outcome) (sd : Side) (a : ℚ) :
    (updateMarketPrices m o sd a).volume = m.volume + a := by
  unfold updateMarketPrices
  split <;> rfl

@[simp] theorem updateMarketPrices_no_eq (m : Market) (o : Outcome) (sd : Side) (a : ℚ) :
    (updateMarketPrices m o sd a).noPrice = 1 - (updateMarketPrices m o sd a).yesPrice := by
  unfold updateMarketPrices
  split <;> rfl

@[simp] theorem updateMarketPrices_fee (m : Market) (o : Outcome) (sd : Side) (a : ℚ) :
    (updateMarketPrices m o sd a).tradingFee = m.tradingFee := by
  unfold updateMarketPrices
  split <;> rfl

@[simp] theorem updateMarketPrices_liquidity (m : Market) (o : Outcome) (sd : Side) (a : ℚ) :
    (updateMarketPrices m o sd a).liquidity = m.liquidity := by
  unfold updateMarketPrices
  split <;> rfl

/-- The AMM update always writes `noPrice := 1 - yesPrice`. -/
theorem updateMarketPrices_sum (m : Market) (o : Outcome) (sd : Side) (a : ℚ) :
    (updateMarketPrices m o sd a).yesPrice + (updateMarketPrices m o sd a).noPrice = 1 := by
  simp only [updateMarketPrices]
  ring

/-- Whenever the execution decision says `canExecute = true`, the execution
price is the current quoted price: market orders use it directly, and the
`min`/`max` with the limit price collapses to it under the `canExecute`
comparison. -/
theorem decideExecution_exec_eq (req : OrderReq) (cp p : ℚ)
    (h : decideExecution req cp = .ok (.exec p)) : p = cp := by
  unfold decideExecution at h
  split at h
  · split at h
    · split at h
      · simp_all
      · split at h
        · split at h <;> simp_all
        · simp_all
    · split at h
      · split at h <;> simp_all
      · simp_all
  · split at h
    · simp_all
    · split at h
      · split at h
        · simp_all [min_eq_left]
        · simp_all
      · split at h
        · simp_all [max_eq_left]
        · simp_all

/-- Master characterization of a settled order: if the handler answers
`created true (some q)`, then `q` is the current quoted price and the final
ledgers are exactly the source's settlement writes — market updated by the
AMM helper, balance debited/credited by the notional, the filled order and
the trade appended, the requested outcome's position updated by the
buy/sell accounting, and the other outcome's position untouched. -/
theorem exec_spec (req : OrderReq) (s : SysState) (r : OrderResult) (s₂ : SysState) (q : ℚ)
    (hpo : processOrder req s = (r, s₂)) (hr : r = .created true (some q)) :
    q = s.currentPrice req.outcome ∧
    s₂.market = updateMarketPrices s.market req.outcome req.side req.amount ∧
    s₂.balance = (if req.side = .buy then s.balance - req.amount else s.balance + req.amount) ∧
    s₂.orders = s.orders ++
      [{ mkOrderRec req (some (req.amount / q)) with
           status := .filled, filledShares := req.amount / q, avgFillPrice := some q }] ∧
    s₂.trades = s.trades ++
      [{ buySide := decide (req.side = .buy), outcome := req.outcome,
           shares := req.amount / q, price := q, amount := req.amount }] ∧
    (req.side = .buy →
      s₂.getPosition req.outcome =
        some (updateUserPosition (s.getPosition req.outcome) (req.amount / q) q req.amount)) ∧
    (req.side = .sell →
      ∃ pos, s.getPosition req.outcome = some pos ∧ req.amount / q ≤ pos.shares ∧
        s₂.getPosition req.outcome = some (sellPositionUpdate pos (req.amount / q))) ∧
    (∀ o, o ≠ req.outcome → s₂.getPosition o = s.getPosition o) := by
  subst hr
  unfold processOrder at hpo
  simp only [] at hpo
  rcases hdec : decideExecution req (s.currentPrice req.outcome) with e | dec <;>
    rw [hdec] at hpo
  · repeat' split at hpo
    all_goals simp_all
  · rcases dec with w | p?
    · have hw : w = s.currentPrice req.outcome := decideExecution_exec_eq req _ w hdec
      subst hw
      simp only [] at hpo
      repeat' split at hpo
      all_goals simp only [Prod.mk.injEq] at hpo
      all_goals obtain ⟨h₁, h₂⟩ := hpo
      all_goals simp at h₁
      all_goals subst h₁
      all_goals subst h₂
      all_goals try exact absurd ‹req.side = Side.buy› ‹¬req.side = Side.buy›
      all_goals try exact absurd (Eq.trans (Eq.symm ‹req.side = Side.buy›) ‹req.side = Side.sell›) buy_ne_sell
      · -- buy settlement
        rename_i hside
        refine ⟨rfl, by simp [hside], by simp [hside], by simp, by simp [hside], ?_, ?_, ?_⟩
        · intro _
          cases req.outcome <;>
            simp [SysState.getPosition, SysState.setPosition]
        · intro hsell
          rw [hside] at hsell
          exact absurd hsell buy_ne_sell
        · intro o ho
          cases hout : req.outcome <;> cases o <;>
            simp_all [SysState.getPosition, SysState.setPosition]
      · -- sell settlement
        rename_i hside optpos pos hpos hok
        refine ⟨rfl, by simp [hside], by simp [hside, sell_ne_buy], by simp,
          by simp [hside, sell_ne_buy], ?_, ?_, ?_⟩
        · intro hbuy
          rw [hside] at hbuy
          exact absurd hbuy sell_ne_buy
        · intro _
          refine ⟨_, hpos, not_lt.mp hok, ?_⟩
          cases req.outcome <;>
            simp [SysState.getPosition, SysState.setPosition]
        · intro o ho
          cases hout : req.outcome <;> cases o <;>
            simp_all [SysState.getPosition, SysState.setPosition]
    · simp only [] at hpo
      repeat' split at hpo
      all_goals simp_all

/-- The execution-decision section can only fail with the two absolute
price-bound errors. -/
theorem decideExecution_error_cases (req : OrderReq) (cp : ℚ) (e : OrderError)
    (h : decideExecution req cp = .error e) :
    e = .priceAboveMax ∨ e = .priceBelowMin := by
  unfold decideExecution at h
  repeat' split at h
  all_goals simp_all

/-- `lacksShares` is `false` exactly when a position exists with at least
the required shares. -/
theorem lacksShares_eq_false (po : Option Position) (r : ℚ) :
    lacksShares po r = false ↔ ∃ p, po = some p ∧ ¬p.shares < r := by
  cases po <;> simp [lacksShares]

/-- Forward equation: when validation passes, the decision errs, the
handler returns that error with the state untouched. -/
theorem processOrder_decide_error (req : OrderReq) (s : SysState) (e : OrderError)
    (hnb : ¬(req.side = .buy ∧ s.balance < req.amount))
    (hns : ¬(req.side = .sell ∧
      lacksShares (s.getPosition req.outcome) (req.amount / s.currentPrice req.outcome) = true))
    (hdec : decideExecution req (s.currentPrice req.outcome) = .error e) :
    processOrder req s = (.err e, s) := by
  unfold processOrder
  simp only [if_neg hnb, if_neg hns, hdec]

/-- Forward equation: when validation passes and the decision is
`noExec p?`, the handler persists a pending order carrying
`amount / executionPrice` (mapped over the possibly-`NaN` price) and
touches nothing else. -/
theorem processOrder_noexec (req : OrderReq) (s : SysState) (p? : Option ℚ)
    (hnb : ¬(req.side = .buy ∧ s.balance < req.amount))
    (hns : ¬(req.side = .sell ∧
      lacksShares (s.getPosition req.outcome) (req.amount / s.currentPrice req.outcome) = true))
    (hdec : decideExecution req (s.currentPrice req.outcome) = .ok (.noExec p?)) :
    processOrder req s = (.created false none,
      { s with orders := s.orders ++ [mkOrderRec req (p?.map (fun x => req.amount / x))] }) := by
  unfold processOrder
  simp only [if_neg hnb, if_neg hns, hdec]

/-- Forward equation: the buy check at routes.ts line 238. -/
theorem processOrder_insufficient_balance (req : OrderReq) (s : SysState)
    (h : req.side = .buy ∧ s.balance < req.amount) :
    processOrder req s = (.err .insufficientBalance, s) := by
  unfold processOrder
  rw [if_pos h]

/-- Forward equation: a buy-side slippage failure happens after the order
was created and returns with only the pending order persisted
(routes.ts lines 333–340 after line 320). -/
theorem processOrder_slippage_buy (req : OrderReq) (s : SysState) (p : ℚ)
    (hnb : ¬(req.side = .buy ∧ s.balance < req.amount))
    (hns : ¬(req.side = .sell ∧
      lacksShares (s.getPosition req.outcome) (req.amount / s.currentPrice req.outcome) = true))
    (hdec : decideExecution req (s.currentPrice req.outcome) = .ok (.exec p))
    (h : req.side = .buy ∧
      s.currentPrice req.outcome * (1 + req.maxSlippage.getD (1 / 20)) < p) :
    processOrder req s = (.err .slippageExceeded,
      { s with orders := s.orders ++ [mkOrderRec req (some (req.amount / p))] }) := by
  obtain ⟨hs1, hs2⟩ := h
  simp only [one_div] at hs2
  have hb : req.amount ≤ s.balance := not_lt.mp fun hh => hnb ⟨hs1, hh⟩
  unfold processOrder
  simp [hdec, hs1, hs2, hb, buy_ne_sell]

/-- Forward equation: a sell-side slippage failure happens after the order
was created and returns with only the pending order persisted
(routes.ts lines 342–349 after line 320). -/
theorem processOrder_slippage_sell (req : OrderReq) (s : SysState) (p : ℚ)
    (hnb : ¬(req.side = .buy ∧ s.balance < req.amount))
    (hns : ¬(req.side = .sell ∧
      lacksShares (s.getPosition req.outcome) (req.amount / s.currentPrice req.outcome) = true))
    (hdec : decideExecution req (s.currentPrice req.outcome) = .ok (.exec p))
    (h1 : ¬(req.side = .buy ∧
      s.currentPrice req.outcome * (1 + req.maxSlippage.getD (1 / 20)) < p))
    (h2 : req.side = .sell ∧
      p < s.currentPrice req.outcome * (1 - req.maxSlippage.getD (1 / 20))) :
    processOrder req s = (.err .slippageExceeded,
      { s with orders := s.orders ++ [mkOrderRec req (some (req.amount / p))] }) := by
  obtain ⟨hs1, hs2⟩ := h2
  simp only [one_div] at hs2
  have hls : lacksShares (s.getPosition req.outcome)
      (req.amount / s.currentPrice req.outcome) = false := by
    rcases hx : lacksShares (s.getPosition req.outcome)
        (req.amount / s.currentPrice req.outcome) with _ | _
    · rfl
    · exact absurd ⟨hs1, hx⟩ hns
  unfold processOrder
  simp [hdec, hs1, hs2, hls, sell_ne_buy]

/-- Forward equation: when validation passes, the decision is `exec p` and
both slippage checks pass, the order settles and the response reports
execution at `p`. -/
theorem processOrder_exec_fst (req : OrderReq) (s : SysState) (p : ℚ)
    (hnb : ¬(req.side = .buy ∧ s.balance < req.amount))
    (hns : ¬(req.side = .sell ∧
      lacksShares (s.getPosition req.outcome) (req.amount / s.currentPrice req.outcome) = true))
    (hdec : decideExecution req (s.currentPrice req.outcome) = .ok (.exec p))
    (hsl1 : ¬(req.side = .buy ∧
      s.currentPrice req.outcome * (1 + req.maxSlippage.getD (1 / 20)) < p))
    (hsl2 : ¬(req.side = .sell ∧
      p < s.currentPrice req.outcome * (1 - req.maxSlippage.getD (1 / 20)))) :
    (processOrder req s).1 = .created true (some p) := by
  have hp := decideExecution_exec_eq _ _ _ hdec
  unfold processOrder
  simp only [if_neg hnb, if_neg hns, hdec]
  rcases hside : req.side with _ | _
  · have h1 : ¬(s.currentPrice req.outcome * (1 + req.maxSlippage.getD (1 / 20)) < p) :=
      fun h => hsl1 ⟨hside, h⟩
    simp only [one_div] at h1
    simp [hside, h1]
  · have hls : lacksShares (s.getPosition req.outcome)
        (req.amount / s.currentPrice req.outcome) = false := by
      rcases hx : lacksShares (s.getPosition req.outcome)
          (req.amount / s.currentPrice req.outcome) with _ | _
      · rfl
      · exact absurd ⟨hside, hx⟩ hns
    obtain ⟨pos, hpos, hge⟩ := (lacksShares_eq_false _ _).mp hls
    have h2 : ¬(p < s.currentPrice req.outcome * (1 - req.maxSlippage.getD (1 / 20))) :=
      fun h => hsl2 ⟨hside, h⟩
    rw [hp] at h2
    rw [hp]
    simp only [one_div] at h2
    simp [hside, hpos, h2, hge]

/-! ## Concrete fixtures for witnesses and counterexamples -/

/-- A fresh market as market creation builds it: both prices at `0.50`
(schema defaults), zero volume, the default `0.02` trading fee. -/
def baseMarket : Market :=
  { yesPrice := 1 / 2, noPrice := 1 / 2, volume := 0, liquidity := 0, tradingFee := 1 / 50 }

/-- A user with cash 1000 and no positions, against `baseMarket`. -/
def baseState : SysState :=
  { market := baseMarket, balance := 1000, posYes := none, posNo := none
    orders := [], trades := [] }

/-- `baseState` where the user additionally holds 200 YES shares bought
for 100 at average price `0.50`. -/
def yesPosState : SysState :=
  { baseState with posYes := some { shares := 200, avgPrice := 1 / 2, totalCost := 100 } }

/-- A plain market buy of notional 100 on YES. -/
def buyReq : OrderReq :=
  { type := .market, side := .buy, outcome := .yes, amount := 100
    limitPrice := none, maxSlippage := none, minPrice := none, maxPrice := none
    shares := 37 }

/-- A market sell of notional 100 on YES: at price `0.50` this liquidates
exactly the 200 shares of `yesPosState`. -/
def sellAllReq : OrderReq :=
  { type := .market, side := .sell, outcome := .yes, amount := 100
    limitPrice := none, maxSlippage := none, minPrice := none, maxPrice := none
    shares := 0 }

/-! ## Claim theorems -/

/-- Claim C2: for every market and every successfully settled order, the
market state written after settlement satisfies `yesPrice + noPrice = 1`. -/
theorem orders_settled_price_sum_one (req : OrderReq) (s : SysState)
    (r : OrderResult) (s₂ : SysState) (p : Option ℚ)
    (hpo : processOrder req s = (r, s₂)) (hr : r = .created true p) :
    s₂.market.yesPrice + s₂.market.noPrice = 1 := by
  subst hr
  unfold processOrder at hpo
  simp only [] at hpo
  rcases hdec : decideExecution req (s.currentPrice req.outcome) with e | dec <;>
    rw [hdec] at hpo
  · repeat' split at hpo
    all_goals simp_all
  · rcases dec with q | p?
    · repeat' split at hpo
      all_goals try simp_all
      all_goals obtain ⟨h₁, h₂⟩ := hpo
      all_goals subst h₂
      all_goals simp [updateMarketPrices_sum]
    · repeat' split at hpo
      all_goals simp_all

/-- Witness for C2: the Scenario-A market buy settles and the written
market satisfies the price-sum invariant. -/
theorem orders_settled_price_sum_one_witness :
    (processOrder buyReq baseState).1 = .created true (some (1 / 2)) ∧
    (processOrder buyReq baseState).2.market.yesPrice
      + (processOrder buyReq baseState).2.market.noPrice = 1 := by
  have h : (processOrder buyReq baseState).1 = .created true (some (1 / 2)) := by
    norm_num [processOrder, baseState, baseMarket, buyReq, decideExecution,
      SysState.currentPrice, lacksShares, SysState.getPosition, SysState.setPosition,
      updateMarketPrices, updateUserPosition, mkOrderRec, buy_ne_sell, sell_ne_buy]
  exact ⟨h, orders_settled_price_sum_one buyReq baseState _ _ _ rfl h⟩

/-- When the pre-trade YES price lies in `[0.05, 0.95]` and the notional is
nonnegative, the one-sided `min`/`max` in the source equals a full clamp of
`yesPrice ± priceImpact` to `[0.05, 0.95]`. -/
theorem updateMarketPrices_clamp (m : Market) (o : Outcome) (sd : Side) (a : ℚ)
    (hlo : 1 / 20 ≤ m.yesPrice) (hhi : m.yesPrice ≤ 19 / 20) (ha : 0 ≤ a) :
    (updateMarketPrices m o sd a).yesPrice =
      (if (o = .yes ∧ sd = .buy) ∨ (o = .no ∧ sd = .sell) then
        max (1 / 20) (min (19 / 20) (m.yesPrice + (1 / 100 + min (a / 1000) (1 / 20))))
      else
        max (1 / 20) (min (19 / 20) (m.yesPrice - (1 / 100 + min (a / 1000) (1 / 20))))) := by
  have himp : (0 : ℚ) ≤ min (a / 1000) (1 / 20) :=
    le_min (by positivity) (by norm_num)
  have hup : max (1 / 20) (min (19 / 20) (m.yesPrice + (1 / 100 + min (a / 1000) (1 / 20))))
      = min (19 / 20) (m.yesPrice + (1 / 100 + min (a / 1000) (1 / 20))) :=
    max_eq_right (le_min (by norm_num) (by linarith))
  have hdn : min (19 / 20) (m.yesPrice - (1 / 100 + min (a / 1000) (1 / 20)))
      = m.yesPrice - (1 / 100 + min (a / 1000) (1 / 20)) :=
    min_eq_right (by linarith)
  unfold updateMarketPrices
  split <;> simp only [hup, hdn]

/-- Claim C3: for every executed order of notional `A` (with the market in
its reachable price range and `A ≥ 0`), the settlement writes
`yesPrice = clamp(yesPrice ± (0.01 + min(A/1000, 0.05)), 0.05, 0.95)` with
the sign given jointly by (outcome, side), sets `noPrice = 1 - yesPrice`,
and increases volume by exactly `A`. -/
theorem amm_update_on_execution (req : OrderReq) (s : SysState)
    (r : OrderResult) (s₂ : SysState) (p : Option ℚ)
    (hpo : processOrder req s = (r, s₂)) (hr : r = .created true p)
    (hlo : 1 / 20 ≤ s.market.yesPrice) (hhi : s.market.yesPrice ≤ 19 / 20)
    (ha : 0 ≤ req.amount) :
    s₂.market.yesPrice =
      (if (req.outcome = .yes ∧ req.side = .buy) ∨ (req.outcome = .no ∧ req.side = .sell) then
        max (1 / 20) (min (19 / 20)
          (s.market.yesPrice + (1 / 100 + min (req.amount / 1000) (1 / 20))))
      else
        max (1 / 20) (min (19 / 20)
          (s.market.yesPrice - (1 / 100 + min (req.amount / 1000) (1 / 20))))) ∧
    s₂.market.noPrice = 1 - s₂.market.yesPrice ∧
    s₂.market.volume = s.market.volume + req.amount := by
  rcases p with _ | q
  · -- the handler never answers `created true none`: rule it out by cases
    subst hr
    unfold processOrder at hpo
    simp only [] at hpo
    rcases hdec : decideExecution req (s.currentPrice req.outcome) with e | dec <;>
      rw [hdec] at hpo
    · repeat' split at hpo
      all_goals simp_all
    · rcases dec with w | p?
      · repeat' split at hpo
        all_goals simp_all
      · repeat' split at hpo
        all_goals simp_all
  · obtain ⟨-, hm, -, -, -, -, -, -⟩ := exec_spec req s _ s₂ q hpo hr
    rw [hm]
    exact ⟨updateMarketPrices_clamp s.market req.outcome req.side req.amount hlo hhi ha,
      updateMarketPrices_no_eq .., updateMarketPrices_volume ..⟩

/-- Witness for C3: the Scenario-A market buy moves the YES price to
`0.50 + 0.01 + 0.05 = 0.56` and adds 100 to volume. -/
theorem amm_update_on_execution_witness :
    (processOrder buyReq baseState).1 = .created true (some (1 / 2)) ∧
    (1 : ℚ) / 20 ≤ baseState.market.yesPrice ∧
    baseState.market.yesPrice ≤ 19 / 20 ∧
    (0 : ℚ) ≤ buyReq.amount ∧
    (processOrder buyReq baseState).2.market.yesPrice =
      (if (buyReq.outcome = .yes ∧ buyReq.side = .buy) ∨
          (buyReq.outcome = .no ∧ buyReq.side = .sell) then
        max (1 / 20) (min (19 / 20)
          (baseState.market.yesPrice + (1 / 100 + min (buyReq.amount / 1000) (1 / 20))))
      else
        max (1 / 20) (min (19 / 20)
          (baseState.market.yesPrice - (1 / 100 + min (buyReq.amount / 1000) (1 / 20))))) ∧
    (processOrder buyReq baseState).2.market.noPrice
      = 1 - (processOrder buyReq baseState).2.market.yesPrice ∧
    (processOrder buyReq baseState).2.market.volume
      = baseState.market.volume + buyReq.amount := by
  have h : (processOrder buyReq baseState).1 = .created true (some (1 / 2)) := by
    norm_num [processOrder, baseState, baseMarket, buyReq, decideExecution,
      SysState.currentPrice, lacksShares, SysState.getPosition, SysState.setPosition,
      updateMarketPrices, updateUserPosition, mkOrderRec, buy_ne_sell, sell_ne_buy]
  have h₁ : (1 : ℚ) / 20 ≤ baseState.market.yesPrice := by norm_num [baseState, baseMarket]
  have h₂ : baseState.market.yesPrice ≤ 19 / 20 := by norm_num [baseState, baseMarket]
  have h₃ : (0 : ℚ) ≤ buyReq.amount := by norm_num [buyReq]
  obtain ⟨c₁, c₂, c₃⟩ :=
    amm_update_on_execution buyReq baseState _ _ _ rfl h h₁ h₂ h₃
  exact ⟨h, h₁, h₂, h₃, c₁, c₂, c₃⟩

/-- Claim C5: every sell settlement on an existing position sets
`newShares = oldShares - tradeShares`; if that is `≤ 0` the position is
zeroed (shares and totalCost exactly 0, avgPrice kept), otherwise
`totalCost := max 0 (oldTotalCost - tradeShares * oldAvgPrice)` with
avgPrice kept; in particular selling exactly all shares zeroes the
position and keeps avgPrice. -/
theorem sell_position_accounting (req : OrderReq) (s : SysState)
    (r : OrderResult) (s₂ : SysState) (q : ℚ) (pos : Position)
    (hpo : processOrder req s = (r, s₂)) (hr : r = .created true (some q))
    (hside : req.side = .sell) (hpos : s.getPosition req.outcome = some pos) :
    s₂.getPosition req.outcome = some
      (if pos.shares - req.amount / q ≤ 0 then
        { shares := 0, avgPrice := pos.avgPrice, totalCost := 0 }
      else
        { shares := pos.shares - req.amount / q, avgPrice := pos.avgPrice
          totalCost := max 0 (pos.totalCost - req.amount / q * pos.avgPrice) }) ∧
    (pos.shares = req.amount / q →
      s₂.getPosition req.outcome =
        some { shares := 0, avgPrice := pos.avgPrice, totalCost := 0 }) := by
  obtain ⟨-, -, -, -, -, -, hsell, -⟩ := exec_spec req s r s₂ q hpo hr
  obtain ⟨pos₀, hpos₀, hle, hupd⟩ := hsell hside
  rw [hpos] at hpos₀
  injection hpos₀ with hpos₀
  subst hpos₀
  have hform : sellPositionUpdate pos (req.amount / q) =
      (if pos.shares - req.amount / q ≤ 0 then
        { shares := 0, avgPrice := pos.avgPrice, totalCost := 0 }
      else
        { shares := pos.shares - req.amount / q, avgPrice := pos.avgPrice
          totalCost := max 0 (pos.totalCost - req.amount / q * pos.avgPrice) }) := by
    rfl
  refine ⟨hform ▸ hupd, fun hall => ?_⟩
  rw [hupd, hform, if_pos (show pos.shares - req.amount / q ≤ 0 by rw [hall]; simp)]

/-- Witness for C5: selling all 200 YES shares held in `yesPosState` zeroes
the position and keeps avgPrice at `0.50`. -/
theorem sell_position_accounting_witness :
    (processOrder sellAllReq yesPosState).1 = .created true (some (1 / 2)) ∧
    sellAllReq.side = .sell ∧
    yesPosState.getPosition sellAllReq.outcome
      = some { shares := 200, avgPrice := 1 / 2, totalCost := 100 } ∧
    (processOrder sellAllReq yesPosState).2.getPosition sellAllReq.outcome
      = some { shares := 0, avgPrice := 1 / 2, totalCost := 0 } := by
  have h : (processOrder sellAllReq yesPosState).1 = .created true (some (1 / 2)) := by
    norm_num [processOrder, yesPosState, baseState, baseMarket, sellAllReq, decideExecution,
      SysState.currentPrice, lacksShares, SysState.getPosition, SysState.setPosition,
      updateMarketPrices, updateUserPosition, sellPositionUpdate, mkOrderRec,
      buy_ne_sell, sell_ne_buy]
  have hside : sellAllReq.side = .sell := rfl
  have hpos : yesPosState.getPosition sellAllReq.outcome
      = some { shares := 200, avgPrice := 1 / 2, totalCost := 100 } := rfl
  have hmain := sell_position_accounting sellAllReq yesPosState _ _ (1 / 2)
    { shares := 200, avgPrice := 1 / 2, totalCost := 100 } rfl h hside hpos
  refine ⟨h, hside, hpos, ?_⟩
  exact hmain.2 (by norm_num [sellAllReq])

/-- Claim C4: for every executed order, the share count recorded on the
order (both the stored `shares` and `filledShares`), on the trade, and as
the position delta is the server-computed `amount / executionPrice`; and
the caller-supplied `shares` field has no influence on any output of the
handler. -/
theorem server_recomputes_shares (s : SysState) (req : OrderReq) (v₁ v₂ : ℚ)
    (r : OrderResult) (s₂ : SysState) (q : ℚ)
    (hpo : processOrder req s = (r, s₂)) (hr : r = .created true (some q)) :
    processOrder { req with shares := v₁ } s = processOrder { req with shares := v₂ } s ∧
    (∃ o, s₂.orders = s.orders ++ [o] ∧ o.shares = some (req.amount / q) ∧
      o.filledShares = req.amount / q) ∧
    (∃ t, s₂.trades = s.trades ++ [t] ∧ t.shares = req.amount / q) ∧
    (s₂.getPosition req.outcome).elim 0 Position.shares =
      (s.getPosition req.outcome).elim 0 Position.shares +
        (if req.side = .buy then req.amount / q else -(req.amount / q)) := by
  obtain ⟨-, -, -, ho, ht, hbuy, hsell, -⟩ := exec_spec req s r s₂ q hpo hr
  refine ⟨rfl, ⟨_, ho, by simp [mkOrderRec], by simp⟩, ⟨_, ht, by simp⟩, ?_⟩
  rcases hs : req.side with _ | _
  · rw [hbuy hs]
    rcases hp : s.getPosition req.outcome with _ | pos <;>
      simp [updateUserPosition, hp]
  · obtain ⟨pos, hpos, hle, hupd⟩ := hsell hs
    rw [hupd, hpos]
    simp only [Option.elim_some, if_neg sell_ne_buy]
    unfold sellPositionUpdate
    simp only []
    split
    · rename_i hz
      show (0 : ℚ) = pos.shares + -(req.amount / q)
      linarith
    · show pos.shares - req.amount / q = pos.shares + -(req.amount / q)
      ring

/-- Witness for C4: the Scenario-A buy yields 200 shares on order, trade
and position, and the handler output is identical whether the caller sends
`shares = 37` or `shares = 99`. -/
theorem server_recomputes_shares_witness :
    (processOrder buyReq baseState).1 = .created true (some (1 / 2)) ∧
    processOrder { buyReq with shares := 37 } baseState
      = processOrder { buyReq with shares := 99 } baseState ∧
    (processOrder buyReq baseState).2.getPosition buyReq.outcome
      = some { shares := 200, avgPrice := 1 / 2, totalCost := 100 } := by
  have h : (processOrder buyReq baseState).1 = .created true (some (1 / 2)) := by
    norm_num [processOrder, baseState, baseMarket, buyReq, decideExecution,
      SysState.currentPrice, lacksShares, SysState.getPosition, SysState.setPosition,
      updateMarketPrices, updateUserPosition, mkOrderRec, buy_ne_sell, sell_ne_buy]
  have hmain := server_recomputes_shares baseState buyReq 37 99 _ _ (1 / 2) rfl h
  refine ⟨h, hmain.1, ?_⟩
  norm_num [processOrder, baseState, baseMarket, buyReq, decideExecution,
    SysState.currentPrice, lacksShares, SysState.getPosition, SysState.setPosition,
    updateMarketPrices, updateUserPosition, mkOrderRec, buy_ne_sell, sell_ne_buy]

/-- Claim C9: every executed order (market or limit, buy or sell) executes
exactly at the market's quoted price for the requested outcome at admission
time; consequently, with a nonnegative quoted price and nonnegative
`maxSlippage` (the 0.05 default included), the `SlippageExceeded` branches
are unreachable. -/
theorem execution_at_current_price_no_slippage (req : OrderReq) (s : SysState)
    (r : OrderResult) (s₂ : SysState)
    (hpo : processOrder req s = (r, s₂)) :
    (∀ q, r = .created true (some q) → q = s.currentPrice req.outcome) ∧
    (0 ≤ s.currentPrice req.outcome → 0 ≤ req.maxSlippage.getD (1 / 20) →
      r ≠ .err .slippageExceeded) := by
  constructor
  · intro q hq
    exact (exec_spec req s r s₂ q hpo hq).1
  · intro hcp hms hr
    subst hr
    unfold processOrder at hpo
    simp only [] at hpo
    rcases hdec : decideExecution req (s.currentPrice req.outcome) with e | dec <;>
      rw [hdec] at hpo
    · rcases decideExecution_error_cases req _ e hdec with he | he <;>
        repeat' split at hpo <;> simp_all
    · rcases dec with w | p?
      · have hw := decideExecution_exec_eq req _ w hdec
        subst hw
        simp only [] at hpo
        repeat' split at hpo
        all_goals try simp_all
        all_goals rename_i hcond
        all_goals nlinarith [hcond.2, mul_nonneg hcp hms]
      · simp only [] at hpo
        repeat' split at hpo
        all_goals simp_all

/-- Witness for C9: the Scenario-A buy executed at the quoted price `0.50`
and did not trip the slippage check. -/
theorem execution_at_current_price_no_slippage_witness :
    (processOrder buyReq baseState).1 = .created true (some (1 / 2)) ∧
    (1 : ℚ) / 2 = baseState.currentPrice buyReq.outcome ∧
    (0 : ℚ) ≤ baseState.currentPrice buyReq.outcome ∧
    (0 : ℚ) ≤ buyReq.maxSlippage.getD (1 / 20) ∧
    (processOrder buyReq baseState).1 ≠ .err .slippageExceeded := by
  have h : (processOrder buyReq baseState).1 = .created true (some (1 / 2)) := by
    norm_num [processOrder, baseState, baseMarket, buyReq, decideExecution,
      SysState.currentPrice, lacksShares, SysState.getPosition, SysState.setPosition,
      updateMarketPrices, updateUserPosition, mkOrderRec, buy_ne_sell, sell_ne_buy]
  have hmain := execution_at_current_price_no_slippage buyReq baseState _ _ rfl
  refine ⟨h, hmain.1 (1 / 2) h, by norm_num [baseState, baseMarket, buyReq, SysState.currentPrice],
    by norm_num [buyReq], hmain.2 (by norm_num [baseState, baseMarket, buyReq, SysState.currentPrice])
      (by norm_num [buyReq])⟩

/-- Claim C6: for a limit order with a present `limitPrice` that passes
validation (sufficient balance on a buy, sufficient shares on a sell) on a
market with nonnegative quoted price and nonnegative `maxSlippage`:
a buy executes exactly when `currentPrice ≤ limitPrice`, at
`min(currentPrice, limitPrice)`; a sell executes exactly when
`currentPrice ≥ limitPrice`, at `max(currentPrice, limitPrice)`; otherwise
the order is persisted as pending and no other ledger changes. -/
theorem limit_order_semantics (req : OrderReq) (s : SysState) (lp : ℚ)
    (htype : req.type = .limit) (hlp : req.limitPrice = some lp)
    (hcp : 0 ≤ s.currentPrice req.outcome)
    (hms : 0 ≤ req.maxSlippage.getD (1 / 20))
    (hbal : req.side = .buy → ¬s.balance < req.amount)
    (hsh : req.side = .sell →
      lacksShares (s.getPosition req.outcome) (req.amount / s.currentPrice req.outcome) = false) :
    (req.side = .buy →
      (s.currentPrice req.outcome ≤ lp →
        (processOrder req s).1 = .created true (some (min (s.currentPrice req.outcome) lp))) ∧
      (¬s.currentPrice req.outcome ≤ lp →
        processOrder req s = (.created false none,
          { s with orders := s.orders ++
              [mkOrderRec req (some (req.amount / min (s.currentPrice req.outcome) lp))] }))) ∧
    (req.side = .sell →
      (lp ≤ s.currentPrice req.outcome →
        (processOrder req s).1 = .created true (some (max (s.currentPrice req.outcome) lp))) ∧
      (¬lp ≤ s.currentPrice req.outcome →
        processOrder req s = (.created false none,
          { s with orders := s.orders ++
              [mkOrderRec req (some (req.amount / max (s.currentPrice req.outcome) lp))] }))) := by
  have hnb : ¬(req.side = .buy ∧ s.balance < req.amount) :=
    fun ⟨h1, h2⟩ => hbal h1 h2
  have hns : ¬(req.side = .sell ∧
      lacksShares (s.getPosition req.outcome) (req.amount / s.currentPrice req.outcome) = true) := by
    rintro ⟨h1, h2⟩
    rw [hsh h1] at h2
    exact Bool.false_ne_true h2
  constructor
  · intro hside
    constructor
    · intro hc
      have hdec : decideExecution req (s.currentPrice req.outcome)
          = .ok (.exec (min (s.currentPrice req.outcome) lp)) := by
        unfold decideExecution
        rw [htype, hlp, hside]
        simp [hc]
      refine processOrder_exec_fst req s _ hnb hns hdec ?_ ?_
      · rintro ⟨-, h2⟩
        rw [min_eq_left hc] at h2
        nlinarith [mul_nonneg hcp hms]
      · rintro ⟨h1, -⟩
        exact buy_ne_sell (hside ▸ h1)
    · intro hc
      have hdec : decideExecution req (s.currentPrice req.outcome)
          = .ok (.noExec (some (min (s.currentPrice req.outcome) lp))) := by
        unfold decideExecution
        rw [htype, hlp, hside]
        simp [hc]
      have := processOrder_noexec req s _ hnb hns hdec
      simpa using this
  · intro hside
    constructor
    · intro hc
      have hdec : decideExecution req (s.currentPrice req.outcome)
          = .ok (.exec (max (s.currentPrice req.outcome) lp)) := by
        unfold decideExecution
        rw [htype, hlp, hside]
        simp [hc]
      refine processOrder_exec_fst req s _ hnb hns hdec ?_ ?_
      · rintro ⟨h1, -⟩
        exact buy_ne_sell ((hside ▸ h1).symm)
      · rintro ⟨-, h2⟩
        rw [max_eq_left hc] at h2
        nlinarith [mul_nonneg hcp hms]
    · intro hc
      have hdec : decideExecution req (s.currentPrice req.outcome)
          = .ok (.noExec (some (max (s.currentPrice req.outcome) lp))) := by
        unfold decideExecution
        rw [htype, hlp, hside]
        simp [hc]
      have := processOrder_noexec req s _ hnb hns hdec
      simpa using this

/-- A limit buy on YES with `limitPrice = 0.40` (Scenario C shape): at the
quoted price `0.50` it must not execute. -/
def limitBuyLowReq : OrderReq :=
  { type := .limit, side := .buy, outcome := .yes, amount := 100
    limitPrice := some (2 / 5), maxSlippage := none, minPrice := none, maxPrice := none
    shares := 0 }

/-- Witness for C6: the Scenario-C limit buy (`limitPrice = 0.40` below the
quoted `0.50`) is persisted as pending with no other ledger change. -/
theorem limit_order_semantics_witness :
    limitBuyLowReq.type = .limit ∧
    limitBuyLowReq.limitPrice = some (2 / 5) ∧
    ¬baseState.currentPrice limitBuyLowReq.outcome ≤ 2 / 5 ∧
    processOrder limitBuyLowReq baseState = (.created false none,
      { baseState with orders := baseState.orders ++
          [mkOrderRec limitBuyLowReq
            (some (limitBuyLowReq.amount / min (baseState.currentPrice limitBuyLowReq.outcome) (2 / 5)))] }) := by
  have hmain := limit_order_semantics limitBuyLowReq baseState (2 / 5) rfl rfl
    (by norm_num [baseState, baseMarket, limitBuyLowReq, SysState.currentPrice])
    (by norm_num [limitBuyLowReq])
    (fun _ => by norm_num [baseState, limitBuyLowReq])
    (fun h => absurd h (by decide))
  have hc : ¬baseState.currentPrice limitBuyLowReq.outcome ≤ 2 / 5 := by
    norm_num [baseState, baseMarket, limitBuyLowReq, SysState.currentPrice]
  exact ⟨rfl, rfl, hc, (hmain.1 rfl).2 hc⟩

/-- Claim C7 (amended): the absolute price bounds are enforced before any
write for market orders — a market buy with `maxPrice` present fails with
`PriceAboveMax` when the execution price exceeds it, and a market sell with
`minPrice` present fails with `PriceBelowMin` when the execution price is
below it; limit orders skip these checks (see the counterexample). -/
theorem market_order_price_bounds (req : OrderReq) (s : SysState) (mp minp : ℚ) :
    (req.type = .market → req.side = .buy → req.maxPrice = some mp →
      ¬s.balance < req.amount → mp < s.currentPrice req.outcome →
      processOrder req s = (.err .priceAboveMax, s)) ∧
    (req.type = .market → req.side = .sell → req.minPrice = some minp →
      req.maxPrice = none →
      lacksShares (s.getPosition req.outcome) (req.amount / s.currentPrice req.outcome) = false →
      s.currentPrice req.outcome < minp →
      processOrder req s = (.err .priceBelowMin, s)) := by
  constructor
  · intro htype hside hmp hbal hc
    have hnb : ¬(req.side = .buy ∧ s.balance < req.amount) := fun h => hbal h.2
    have hns : ¬(req.side = .sell ∧
        lacksShares (s.getPosition req.outcome) (req.amount / s.currentPrice req.outcome) = true) :=
      fun h => buy_ne_sell (hside.symm.trans h.1)
    have hdec : decideExecution req (s.currentPrice req.outcome) = .error .priceAboveMax := by
      unfold decideExecution
      rw [htype, hmp]
      simp [hc]
    exact processOrder_decide_error req s _ hnb hns hdec
  · intro htype hside hminp hmp hls hc
    have hnb : ¬(req.side = .buy ∧ s.balance < req.amount) :=
      fun h => sell_ne_buy (hside.symm.trans h.1)
    have hns : ¬(req.side = .sell ∧
        lacksShares (s.getPosition req.outcome) (req.amount / s.currentPrice req.outcome) = true) := by
      rintro ⟨-, h2⟩
      rw [hls] at h2
      exact Bool.false_ne_true h2
    have hdec : decideExecution req (s.currentPrice req.outcome) = .error .priceBelowMin := by
      unfold decideExecution
      rw [htype, hmp, hminp]
      simp [hc]
    exact processOrder_decide_error req s _ hnb hns hdec

/-- A limit buy whose `limitPrice` admits execution at `0.50` but whose
`maxPrice = 0.10` is far below the execution price. -/
def limitBuyMaxReq : OrderReq :=
  { type := .limit, side := .buy, outcome := .yes, amount := 100
    limitPrice := some (1 / 2), maxSlippage := none, minPrice := none
    maxPrice := some (1 / 10), shares := 0 }

/-- Counterexample to C7 as stated: a limit order that reaches execution
with `maxPrice` present and `executionPrice > maxPrice` is NOT rejected
with `PriceAboveMax` — it executes, because the source checks the absolute
bounds only inside the market-order branch. -/
theorem limit_order_skips_price_bounds_cex :
    limitBuyMaxReq.type = .limit ∧
    limitBuyMaxReq.maxPrice = some (1 / 10) ∧
    ((1 : ℚ) / 10 < 1 / 2) ∧
    (processOrder limitBuyMaxReq baseState).1 = .created true (some (1 / 2)) := by
  refine ⟨rfl, rfl, by norm_num, ?_⟩
  norm_num [processOrder, baseState, baseMarket, limitBuyMaxReq, decideExecution,
    SysState.currentPrice, lacksShares, SysState.getPosition, SysState.setPosition,
    updateMarketPrices, updateUserPosition, mkOrderRec, buy_ne_sell, sell_ne_buy]

/-- A market buy with `maxPrice = 0.10` below the quoted `0.50`. -/
def marketBuyMaxReq : OrderReq :=
  { type := .market, side := .buy, outcome := .yes, amount := 100
    limitPrice := none, maxSlippage := none, minPrice := none
    maxPrice := some (1 / 10), shares := 0 }

/-- Witness for C7 (amended): the market buy with breached `maxPrice` fails
with `PriceAboveMax` and leaves the state untouched. -/
theorem market_order_price_bounds_witness :
    marketBuyMaxReq.type = .market ∧
    marketBuyMaxReq.side = .buy ∧
    marketBuyMaxReq.maxPrice = some (1 / 10) ∧
    ¬baseState.balance < marketBuyMaxReq.amount ∧
    (1 : ℚ) / 10 < baseState.currentPrice marketBuyMaxReq.outcome ∧
    processOrder marketBuyMaxReq baseState = (.err .priceAboveMax, baseState) := by
  have hbal : ¬baseState.balance < marketBuyMaxReq.amount := by
    norm_num [baseState, marketBuyMaxReq]
  have hc : (1 : ℚ) / 10 < baseState.currentPrice marketBuyMaxReq.outcome := by
    norm_num [baseState, baseMarket, marketBuyMaxReq, SysState.currentPrice]
  exact ⟨rfl, rfl, rfl, hbal, hc,
    (market_order_price_bounds marketBuyMaxReq baseState (1 / 10) 0).1 rfl rfl rfl hbal hc⟩

/-- Claim C8 (amended): a limit order submitted without `limitPrice` is NOT
rejected — it passes schema validation, every `NaN` comparison makes
`canExecute` false, and the order is persisted as pending (with `NaN`
server shares) with no other ledger change. -/
theorem limit_without_price_pending (req : OrderReq) (s : SysState)
    (htype : req.type = .limit) (hlp : req.limitPrice = none)
    (hbal : req.side = .buy → ¬s.balance < req.amount)
    (hsh : req.side = .sell →
      lacksShares (s.getPosition req.outcome) (req.amount / s.currentPrice req.outcome) = false) :
    processOrder req s = (.created false none,
      { s with orders := s.orders ++ [mkOrderRec req none] }) := by
  have hnb : ¬(req.side = .buy ∧ s.balance < req.amount) :=
    fun ⟨h1, h2⟩ => hbal h1 h2
  have hns : ¬(req.side = .sell ∧
      lacksShares (s.getPosition req.outcome) (req.amount / s.currentPrice req.outcome) = true) := by
    rintro ⟨h1, h2⟩
    rw [hsh h1] at h2
    exact Bool.false_ne_true h2
  have hdec : decideExecution req (s.currentPrice req.outcome) = .ok (.noExec none) := by
    unfold decideExecution
    rw [htype, hlp]
  simpa using processOrder_noexec req s none hnb hns hdec

/-- A limit buy submitted without a `limitPrice`. -/
def limitNoPriceReq : OrderReq :=
  { type := .limit, side := .buy, outcome := .yes, amount := 100
    limitPrice := none, maxSlippage := none, minPrice := none, maxPrice := none
    shares := 0 }

/-- Counterexample to C8 as stated: the limit order without `limitPrice` is
answered with a success response (`executed = false`) and persisted as a
pending order — it is not rejected with any error. -/
theorem limit_without_price_not_rejected_cex :
    limitNoPriceReq.type = .limit ∧
    limitNoPriceReq.limitPrice = none ∧
    (processOrder limitNoPriceReq baseState).1 = .created false none ∧
    (processOrder limitNoPriceReq baseState).2.orders = [mkOrderRec limitNoPriceReq none] := by
  refine ⟨rfl, rfl, ?_, ?_⟩ <;>
    norm_num [processOrder, baseState, baseMarket, limitNoPriceReq, decideExecution,
      SysState.currentPrice, lacksShares, SysState.getPosition, SysState.setPosition,
      updateMarketPrices, updateUserPosition, mkOrderRec, buy_ne_sell, sell_ne_buy]

/-- Witness for C8 (amended): the concrete limit order without `limitPrice`
is persisted pending with no other change. -/
theorem limit_without_price_pending_witness :
    limitNoPriceReq.type = .limit ∧
    limitNoPriceReq.limitPrice = none ∧
    processOrder limitNoPriceReq baseState = (.created false none,
      { baseState with orders := baseState.orders ++ [mkOrderRec limitNoPriceReq none] }) :=
  ⟨rfl, rfl,
    limit_without_price_pending limitNoPriceReq baseState rfl rfl
      (fun _ => by norm_num [baseState, limitNoPriceReq])
      (fun h => absurd h (by decide))⟩

/-- A sell request with insufficient shares fails upfront with
`InsufficientShares` and returns the state untouched (routes.ts lines
248–264, before `createOrder`). -/
theorem sell_insufficient_shares_untouched (req : OrderReq) (s : SysState)
    (hside : req.side = .sell)
    (hls : lacksShares (s.getPosition req.outcome)
      (req.amount / s.currentPrice req.outcome) = true) :
    processOrder req s = (.err .insufficientShares, s) := by
  have hnb : ¬(req.side = .buy ∧ s.balance < req.amount) :=
    fun h => sell_ne_buy (hside.symm.trans h.1)
  unfold processOrder
  simp only [if_neg hnb, if_pos (And.intro hside hls)]

/-- Claim C1 (amended): every business-rule failure leaves the Trade,
Balance, Position and Market ledgers untouched; failures other than
`SlippageExceeded` leave the whole state untouched (they are detected
before `createOrder`); a `SlippageExceeded` failure — reachable only
through a negative caller-supplied `maxSlippage`, see the counterexample —
occurs after `createOrder` and leaves exactly the pending order behind.
A sell for more shares than held fails with `InsufficientShares` and
mutates nothing. -/
theorem business_rule_failure_frame (req : OrderReq) (s : SysState)
    (r : OrderResult) (s₂ : SysState) (e : OrderError)
    (hpo : processOrder req s = (r, s₂)) (hr : r = .err e) :
    s₂.market = s.market ∧ s₂.balance = s.balance ∧
    s₂.posYes = s.posYes ∧ s₂.posNo = s.posNo ∧ s₂.trades = s.trades ∧
    (e ≠ .slippageExceeded → s₂ = s) ∧
    (e = .slippageExceeded →
      s₂.orders = s.orders ++
        [mkOrderRec req (some (req.amount / s.currentPrice req.outcome))]) ∧
    (req.side = .sell →
      lacksShares (s.getPosition req.outcome)
        (req.amount / s.currentPrice req.outcome) = true →
      processOrder req s = (.err .insufficientShares, s)) := by
  subst hr
  by_cases hC1 : req.side = .buy ∧ s.balance < req.amount
  · rw [processOrder_insufficient_balance req s hC1] at hpo
    injection hpo with ha hb
    injection ha with ha
    subst ha
    subst hb
    exact ⟨rfl, rfl, rfl, rfl, rfl, fun _ => rfl, fun he => absurd he (by decide),
      fun hside hls => sell_insufficient_shares_untouched req s hside hls⟩
  · by_cases hC2 : req.side = .sell ∧
        lacksShares (s.getPosition req.outcome) (req.amount / s.currentPrice req.outcome) = true
    · rw [sell_insufficient_shares_untouched req s hC2.1 hC2.2] at hpo
      injection hpo with ha hb
      injection ha with ha
      subst ha
      subst hb
      exact ⟨rfl, rfl, rfl, rfl, rfl, fun _ => rfl, fun he => absurd he (by decide),
        fun hside hls => sell_insufficient_shares_untouched req s hside hls⟩
    · rcases hdec : decideExecution req (s.currentPrice req.outcome) with e' | dec
      · rw [processOrder_decide_error req s e' hC1 hC2 hdec] at hpo
        injection hpo with ha hb
        injection ha with ha
        subst ha
        subst hb
        refine ⟨rfl, rfl, rfl, rfl, rfl, fun _ => rfl, fun he => ?_,
          fun hside hls => sell_insufficient_shares_untouched req s hside hls⟩
        rcases decideExecution_error_cases req _ e' hdec with h | h <;> simp_all
      · rcases dec with w | p?
        · have hw := decideExecution_exec_eq req _ w hdec
          subst hw
          by_cases hS1 : req.side = .buy ∧
              s.currentPrice req.outcome * (1 + req.maxSlippage.getD (1 / 20))
                < s.currentPrice req.outcome
          · rw [processOrder_slippage_buy req s _ hC1 hC2 hdec hS1] at hpo
            injection hpo with ha hb
            injection ha with ha
            subst ha
            subst hb
            exact ⟨rfl, rfl, rfl, rfl, rfl, fun hne => absurd rfl hne, fun _ => rfl,
              fun hside hls => sell_insufficient_shares_untouched req s hside hls⟩
          · by_cases hS2 : req.side = .sell ∧
                s.currentPrice req.outcome
                  < s.currentPrice req.outcome * (1 - req.maxSlippage.getD (1 / 20))
            · rw [processOrder_slippage_sell req s _ hC1 hC2 hdec hS1 hS2] at hpo
              injection hpo with ha hb
              injection ha with ha
              subst ha
              subst hb
              exact ⟨rfl, rfl, rfl, rfl, rfl, fun hne => absurd rfl hne, fun _ => rfl,
                fun hside hls => sell_insufficient_shares_untouched req s hside hls⟩
            · have hfst := processOrder_exec_fst req s _ hC1 hC2 hdec hS1 hS2
              rw [hpo] at hfst
              exact absurd hfst (by simp)
        · rw [processOrder_noexec req s p? hC1 hC2 hdec] at hpo
          injection hpo with ha hb
          exact absurd ha (by simp)

/-- A market buy carrying a negative caller-supplied `maxSlippage`. -/
def negSlippageReq : OrderReq :=
  { type := .market, side := .buy, outcome := .yes, amount := 100
    limitPrice := none, maxSlippage := some (-(1 / 2)), minPrice := none, maxPrice := none
    shares := 0 }

/-- Counterexample to C1 as stated: a `SlippageExceeded` failure (from a
negative caller-supplied `maxSlippage`) is detected only after
`createOrder`, so the Order ledger is mutated on a business-rule failure. -/
theorem slippage_failure_after_write_cex :
    (processOrder negSlippageReq baseState).1 = .err .slippageExceeded ∧
    (processOrder negSlippageReq baseState).2.orders ≠ baseState.orders := by
  constructor <;>
    norm_num [processOrder, baseState, baseMarket, negSlippageReq, decideExecution,
      SysState.currentPrice, lacksShares, SysState.getPosition, SysState.setPosition,
      updateMarketPrices, updateUserPosition, mkOrderRec, buy_ne_sell, sell_ne_buy]

/-- A market sell on YES with no position held (Scenario D). -/
def sellNoPositionReq : OrderReq :=
  { type := .market, side := .sell, outcome := .yes, amount := 100
    limitPrice := none, maxSlippage := none, minPrice := none, maxPrice := none
    shares := 0 }

/-- Witness for C1 (amended): the Scenario-D sell with no position fails
with `InsufficientShares` and every ledger is exactly as before. -/
theorem business_rule_failure_frame_witness :
    (processOrder sellNoPositionReq baseState).1 = .err .insufficientShares ∧
    (processOrder sellNoPositionReq baseState).2 = baseState := by
  have h : (processOrder sellNoPositionReq baseState).1 = .err .insufficientShares := by
    norm_num [processOrder, baseState, baseMarket, sellNoPositionReq, decideExecution,
      SysState.currentPrice, lacksShares, SysState.getPosition, SysState.setPosition,
      updateMarketPrices, updateUserPosition, mkOrderRec, buy_ne_sell, sell_ne_buy]
  have hmain := business_rule_failure_frame sellNoPositionReq baseState _ _
    .insufficientShares rfl h
  exact ⟨h, hmain.2.2.2.2.2.1 (by decide)⟩

/-- Forward equation: the complete final state of a buy settlement
(routes.ts lines 352–446). -/
theorem processOrder_settle_buy (req : OrderReq) (s : SysState) (p : ℚ)
    (hnb : ¬(req.side = .buy ∧ s.balance < req.amount))
    (hdec : decideExecution req (s.currentPrice req.outcome) = .ok (.exec p))
    (hS1 : ¬(req.side = .buy ∧
      s.currentPrice req.outcome * (1 + req.maxSlippage.getD (1 / 20)) < p))
    (hside : req.side = .buy) :
    processOrder req s = (.created true (some p),
      { market := updateMarketPrices s.market req.outcome req.side req.amount
        balance := s.balance - req.amount
        posYes := if req.outcome = .yes
          then some (updateUserPosition (s.getPosition req.outcome) (req.amount / p) p req.amount)
          else s.posYes
        posNo := if req.outcome = .no
          then some (updateUserPosition (s.getPosition req.outcome) (req.amount / p) p req.amount)
          else s.posNo
        orders := s.orders ++
          [{ mkOrderRec req (some (req.amount / p)) with
               status := .filled, filledShares := req.amount / p, avgFillPrice := some p }]
        trades := s.trades ++
          [{ buySide := true, outcome := req.outcome,
               shares := req.amount / p, price := p, amount := req.amount }] }) := by
  have hb : ¬s.balance < req.amount := fun hh => hnb ⟨hside, hh⟩
  have hS1' : ¬(s.currentPrice req.outcome * (1 + req.maxSlippage.getD (1 / 20)) < p) :=
    fun hh => hS1 ⟨hside, hh⟩
  simp only [one_div] at hS1'
  unfold processOrder
  simp [hdec, hside, hb, hS1', buy_ne_sell]
  cases req.outcome <;>
    simp [SysState.setPosition, SysState.getPosition]

/-- Forward equation: the complete final state of a sell settlement
(routes.ts lines 379–446). -/
theorem processOrder_settle_sell (req : OrderReq) (s : SysState) (p : ℚ) (pos : Position)
    (hns : ¬(req.side = .sell ∧
      lacksShares (s.getPosition req.outcome) (req.amount / s.currentPrice req.outcome) = true))
    (hdec : decideExecution req (s.currentPrice req.outcome) = .ok (.exec p))
    (hS2 : ¬(req.side = .sell ∧
      p < s.currentPrice req.outcome * (1 - req.maxSlippage.getD (1 / 20))))
    (hside : req.side = .sell)
    (hpos : s.getPosition req.outcome = some pos)
    (hge : ¬pos.shares < req.amount / p) :
    processOrder req s = (.created true (some p),
      { market := updateMarketPrices s.market req.outcome req.side req.amount
        balance := s.balance + req.amount
        posYes := if req.outcome = .yes
          then some (sellPositionUpdate pos (req.amount / p))
          else s.posYes
        posNo := if req.outcome = .no
          then some (sellPositionUpdate pos (req.amount / p))
          else s.posNo
        orders := s.orders ++
          [{ mkOrderRec req (some (req.amount / p)) with
               status := .filled, filledShares := req.amount / p, avgFillPrice := some p }]
        trades := s.trades ++
          [{ buySide := false, outcome := req.outcome,
               shares := req.amount / p, price := p, amount := req.amount }] }) := by
  have hp := decideExecution_exec_eq _ _ _ hdec
  have hls : lacksShares (s.getPosition req.outcome)
      (req.amount / s.currentPrice req.outcome) = false := by
    rcases hx : lacksShares (s.getPosition req.outcome)
        (req.amount / s.currentPrice req.outcome) with _ | _
    · rfl
    · exact absurd ⟨hside, hx⟩ hns
  have hS2' : ¬(p < s.currentPrice req.outcome * (1 - req.maxSlippage.getD (1 / 20))) :=
    fun hh => hS2 ⟨hside, hh⟩
  simp only [one_div] at hS2'
  have hls2 : lacksShares (some pos) (req.amount / s.currentPrice req.outcome) = false := by
    simp only [lacksShares, decide_eq_false_iff_not]
    exact fun hq => hge (hp ▸ hq)
  unfold processOrder
  simp [hdec, hside, hls2, hS2', sell_ne_buy, hpos, hge]
  cases req.outcome <;>
    simp [SysState.setPosition, SysState.getPosition]

/-- Claim C10: the user's balance changes by exactly the requested notional
(debited on buy, credited on sell) on every executed order, and the
market's `tradingFee` is never read or applied anywhere: changing it to any
value leaves the entire handler output unchanged except for the carried
field itself. -/
theorem trading_fee_unused_and_exact_balance (req : OrderReq) (s : SysState)
    (r : OrderResult) (s₂ : SysState) (f q : ℚ)
    (hpo : processOrder req s = (r, s₂)) :
    processOrder req { s with market := { s.market with tradingFee := f } } =
      (r, { s₂ with market := { s₂.market with tradingFee := f } }) ∧
    (r = .created true (some q) →
      s₂.balance = if req.side = .buy then s.balance - req.amount
        else s.balance + req.amount) := by
  constructor
  case right =>
    intro hq
    exact (exec_spec req s r s₂ q hpo hq).2.2.1
  case left =>
    by_cases hC1 : req.side = .buy ∧ s.balance < req.amount
    · rw [processOrder_insufficient_balance req s hC1] at hpo
      injection hpo with ha hb
      subst ha
      subst hb
      exact processOrder_insufficient_balance req _ hC1
    · by_cases hC2 : req.side = .sell ∧
          lacksShares (s.getPosition req.outcome) (req.amount / s.currentPrice req.outcome) = true
      · rw [sell_insufficient_shares_untouched req s hC2.1 hC2.2] at hpo
        injection hpo with ha hb
        subst ha
        subst hb
        exact sell_insufficient_shares_untouched req _ hC2.1 hC2.2
      · rcases hdec : decideExecution req (s.currentPrice req.outcome) with e' | dec
        · rw [processOrder_decide_error req s e' hC1 hC2 hdec] at hpo
          injection hpo with ha hb
          subst ha
          subst hb
          exact processOrder_decide_error req _ e' hC1 hC2 hdec
        · rcases dec with w | p?
          · have hw := decideExecution_exec_eq req _ w hdec
            subst hw
            by_cases hS1 : req.side = .buy ∧
                s.currentPrice req.outcome * (1 + req.maxSlippage.getD (1 / 20))
                  < s.currentPrice req.outcome
            · rw [processOrder_slippage_buy req s _ hC1 hC2 hdec hS1] at hpo
              injection hpo with ha hb
              subst ha
              subst hb
              exact processOrder_slippage_buy req _ _ hC1 hC2 hdec hS1
            · by_cases hS2 : req.side = .sell ∧
                  s.currentPrice req.outcome
                    < s.currentPrice req.outcome * (1 - req.maxSlippage.getD (1 / 20))
              · rw [processOrder_slippage_sell req s _ hC1 hC2 hdec hS1 hS2] at hpo
                injection hpo with ha hb
                subst ha
                subst hb
                exact processOrder_slippage_sell req _ _ hC1 hC2 hdec hS1 hS2
              · rcases hside : req.side with _ | _
                · rw [processOrder_settle_buy req s _ hC1 hdec hS1 hside] at hpo
                  injection hpo with ha hb
                  subst ha
                  subst hb
                  exact processOrder_settle_buy req _ _ hC1 hdec hS1 hside
                · have hls : lacksShares (s.getPosition req.outcome)
                      (req.amount / s.currentPrice req.outcome) = false := by
                    rcases hx : lacksShares (s.getPosition req.outcome)
                        (req.amount / s.currentPrice req.outcome) with _ | _
                    · rfl
                    · exact absurd ⟨hside, hx⟩ hC2
                  obtain ⟨pos, hpos, hge⟩ := (lacksShares_eq_false _ _).mp hls
                  rw [processOrder_settle_sell req s _ pos hC2 hdec hS2 hside hpos hge] at hpo
                  injection hpo with ha hb
                  subst ha
                  subst hb
                  exact processOrder_settle_sell req _ _ pos hC2 hdec hS2 hside hpos hge
          · rw [processOrder_noexec req s p? hC1 hC2 hdec] at hpo
            injection hpo with ha hb
            subst ha
            subst hb
            exact processOrder_noexec req _ p? hC1 hC2 hdec

/-- Witness for C10: on the Scenario-A buy the balance is debited by
exactly 100, and raising the trading fee to 10% changes nothing but the
carried field. -/
theorem trading_fee_unused_and_exact_balance_witness :
    (processOrder buyReq baseState).1 = .created true (some (1 / 2)) ∧
    processOrder buyReq { baseState with market := { baseState.market with tradingFee := 1 / 10 } }
      = ((processOrder buyReq baseState).1,
         { (processOrder buyReq baseState).2 with market :=
             { (processOrder buyReq baseState).2.market with tradingFee := 1 / 10 } }) ∧
    (processOrder buyReq baseState).2.balance
      = (if buyReq.side = .buy then baseState.balance - buyReq.amount
         else baseState.balance + buyReq.amount) := by
  have h : (processOrder buyReq baseState).1 = .created true (some (1 / 2)) := by
    norm_num [processOrder, baseState, baseMarket, buyReq, decideExecution,
      SysState.currentPrice, lacksShares, SysState.getPosition, SysState.setPosition,
      updateMarketPrices, updateUserPosition, mkOrderRec, buy_ne_sell, sell_ne_buy]
  have hmain := trading_fee_unused_and_exact_balance buyReq baseState _ _ (1 / 10) (1 / 2) rfl
  exact ⟨h, hmain.1, hmain.2 h⟩

end Gala8Ball
